import Mathlib

/-!
Verification of the conversation session engine of the SpongeBob CLI chatbot
(`spongebob_cli.py`): the in-memory message store, the sliding-window
truncation `truncate_history`, the HTTP response handling of `call_api`,
the transcript serialization of `save_transcript`, and one iteration of the
REPL loop in `main`.

Strings are modelled as `List Char`; the functions below are shallow
embeddings of the corresponding Python functions, translated line by line.
-/

/-- Whitespace characters stripped by Python `str.strip()` (ASCII range). -/
def isSpace (c : Char) : Bool :=
  c = ' ' || c = '\t' || c = '\n' || c = '\r' || c = Char.ofNat 11 || c = Char.ofNat 12

/-- Python `s.strip()`: remove leading and trailing whitespace. -/
def pstrip (s : List Char) : List Char :=
  ((s.dropWhile isSpace).reverse.dropWhile isSpace).reverse

/-- Python `str.lower()` restricted to the ASCII letters, which is all the
command dispatcher compares against. -/
def toLowerC (c : Char) : Char :=
  if 'A' ≤ c ∧ c ≤ 'Z' then Char.ofNat (c.toNat + 32) else c

/-- Python `s.lower()` on a whole string. -/
def toLowerL (s : List Char) : List Char :=
  s.map toLowerC

/-- Python `str.upper()` on one ASCII character, used by `capitalize`. -/
def toUpperC (c : Char) : Char :=
  if 'a' ≤ c ∧ c ≤ 'z' then Char.ofNat (c.toNat - 32) else c

/-- Python `s.capitalize()`: first character uppercased, the rest lowercased. -/
def capitalize : List Char → List Char
  | [] => []
  | c :: rest => toUpperC c :: toLowerL rest

/-- Message roles; the store only ever holds these three
(`{"role": "system" | "user" | "assistant", ...}`). -/
inductive Role where
  | system
  | user
  | assistant
deriving DecidableEq

/-- The role string exactly as it appears in the Python dicts. -/
def roleStr : Role → List Char
  | Role.system => "system".data
  | Role.user => "user".data
  | Role.assistant => "assistant".data

/-- One entry of the history list: `{"role": r, "content": c}`. -/
structure Message where
  role : Role
  content : List Char
deriving DecidableEq

/-- Embedding of `truncate_history(history, max_pairs)`.

Python:
```
if max_pairs <= 0:
    return history[:1]
body = history[1:]
trimmed = body[-(2*max_pairs):] if len(body) > 2*max_pairs else body
return [history[0], *trimmed]
```
`history[0]` on an empty list raises `IndexError`; the embedding returns
`none` exactly there. `history[:1]` on an empty list is `[]` and does not
raise. -/
def truncate_history (history : List Message) (max_pairs : Int) : Option (List Message) :=
  if max_pairs ≤ 0 then
    some (history.take 1)
  else
    match history with
    | [] => none
    | h0 :: body =>
      let n := 2 * max_pairs.toNat
      let trimmed := if body.length > n then body.drop (body.length - n) else body
      some (h0 :: trimmed)

/-- The observable part of an HTTP response, as `call_api` inspects it:
the status code (`resp.status_code`), the raw body text (`resp.text`), and
the result of extracting `data["choices"][0]["message"]["content"]` from the
parsed JSON body (`none` when the body is not JSON or the path is missing,
both of which raise inside `call_api`). -/
structure HttpResponse where
  status : Nat
  text : List Char
  extract : Option (List Char)
deriving DecidableEq

/-- Embedding of `call_api` after the POST: returns the reply text, or the
message of the `RuntimeError` it raises.

Python:
```
if resp.status_code != 200:
    raise RuntimeError(f"HTTP \x7bresp.status_code\x7d: \x7bresp.text\x7d")
data = resp.json()
try:
    return data["choices"][0]["message"]["content"]
except Exception as e:
    raise RuntimeError(f"Unexpected response format: ...") from e
```
The diagnostic payload of the second failure (`json.dumps(data, indent=2)`)
is modelled by the raw body text; no claim depends on its exact form. -/
def call_api (resp : HttpResponse) : Except (List Char) (List Char) :=
  if resp.status ≠ 200 then
    Except.error ("HTTP ".data ++ (Nat.repr resp.status).data ++ ": ".data ++ resp.text)
  else
    match resp.extract with
    | some c => Except.ok c
    | none => Except.error ("Unexpected response format: ".data ++ resp.text)

theorem truncate_history_pos (h0 : Message) (body : List Message) (k : Int) (hk : 0 < k) :
    truncate_history (h0 :: body) k
      = some (h0 :: body.drop (body.length - 2 * k.toNat)) := by
  unfold truncate_history
  rw [if_neg (by omega)]
  simp only
  by_cases hlen : body.length > 2 * k.toNat
  · rw [if_pos hlen]
  · rw [if_neg hlen]
    have : body.length - 2 * k.toNat = 0 := by omega
    rw [this, List.drop_zero]

/-- One line of the transcript file: `f"\x7brole\x7d: \x7bcontent\x7d\n\n"`
with `role = m.get("role", "?").capitalize()`. -/
def serializeMsg (m : Message) : List Char :=
  capitalize (roleStr m.role) ++ ": ".data ++ m.content ++ "\n\n".data

/-- Embedding of `save_transcript(history, path)`: the exact text written to
the file (the path handling and directory creation are external I/O). -/
def save_transcript (history : List Message) : List Char :=
  (history.map serializeMsg).flatten

/-- Whether the text contains two consecutive newline characters. -/
def hasNN : List Char → Bool
  | [] => false
  | c :: rest => (c = '\n' && rest.head? = some '\n') || hasNN rest

/-- Split off everything before the first blank line (`"\n\n"`), returning it
together with the text after the blank line; `none` when no blank line occurs. -/
def breakBlank : List Char → Option (List Char × List Char)
  | [] => none
  | c :: rest =>
    if c = '\n' && rest.head? = some '\n' then some ([], rest.tail)
    else (breakBlank rest).map (fun p => (c :: p.1, p.2))

/-- Modelled from the spec: one parsed transcript entry is a role label, a
colon and a space, then the content. -/
def parseEntry (chunk : List Char) : Option (List Char × List Char) :=
  match chunk.dropWhile (fun c => c ≠ ':') with
  | ':' :: ' ' :: rest => some (chunk.takeWhile (fun c => c ≠ ':'), rest)
  | _ => none

/-- Modelled from the spec: parse a sequence of blank-line-terminated
entries; the fuel argument bounds the recursion by the text length. -/
def parseAllF : Nat → List Char → Option (List (List Char × List Char))
  | _, [] => some []
  | 0, _ :: _ => none
  | fuel + 1, s =>
    match breakBlank s with
    | none => none
    | some (chunk, rest) =>
      (parseEntry chunk).bind fun e =>
        (parseAllF fuel rest).map fun es => e :: es

/-- Modelled from the spec: the transcript sink is not part of the core, so
the reader of the written text is reconstructed from the round-trip wording —
entries separated by blank lines, each a role label, a colon, and content. -/
def parseTranscript (s : List Char) : Option (List (List Char × List Char)) :=
  parseAllF s.length s

/-- The first whitespace-delimited token of `user.split(maxsplit=1)`. -/
def firstTok (s : List Char) : List Char :=
  s.takeWhile (fun c => !isSpace c)

/-- The remainder `parts[1]` of `user.split(maxsplit=1)` (empty when the
line has a single token, matching `arg = parts[1] if len(parts) > 1 else ""`). -/
def restArg (s : List Char) : List Char :=
  (s.dropWhile (fun c => !isSpace c)).dropWhile isSpace

/-- What one loop iteration prints (the exact wording of the fixed banners is
external presentation; the payloads that claims inspect are carried). -/
inductive Output where
  | bye
  | helpText
  | resetMsg
  | savedMsg (arg : List Char)
  | unknownCmd (cmd : List Char)
  | reply (text : List Char)
  | errorMsg (err : List Char)
deriving DecidableEq

/-- The observable outcome of one REPL iteration: the history afterwards,
whether the loop breaks, what was printed, whether the network was called,
and the window submitted to the remote service (when a call happened). -/
structure StepResult where
  history : List Message
  quit : Bool
  out : List Output
  apiCalled : Bool
  sent : Option (List Message)
deriving DecidableEq

/-- The command branches of `main` (the body under `if user.startswith(":")`),
given the lowercased first token `cmd` and the remainder `arg`.
`history[0]` in the `:reset` branch raises on an empty history, hence `none`
there. -/
def dispatchCmd (history : List Message) (cmd arg : List Char) : Option StepResult :=
  if cmd = ":quit".data ∨ cmd = ":q".data ∨ cmd = ":exit".data then
    some ⟨history, true, [Output.bye], false, none⟩
  else if cmd = ":help".data then
    some ⟨history, false, [Output.helpText], false, none⟩
  else if cmd = ":reset".data then
    match history with
    | [] => none
    | h0 :: _ => some ⟨[h0], false, [Output.resetMsg], false, none⟩
  else if cmd = ":save".data then
    some ⟨history, false, [Output.savedMsg arg], false, none⟩
  else
    some ⟨history, false, [Output.unknownCmd cmd], false, none⟩

/-- The chat-turn branch of `main`: append the user message, truncate, call
the API with the window, then append either the reply or an error entry
`f"(Error: ...)"`. `resp` is the response the remote service gives to this
turn. -/
def chatTurn (history : List Message) (user : List Char) (resp : HttpResponse)
    (max_turns : Int) : Option StepResult :=
  let h1 := history ++ [⟨Role.user, user⟩]
  match truncate_history h1 max_turns with
  | none => none
  | some trimmed =>
    match call_api resp with
    | Except.ok reply =>
      some ⟨h1 ++ [⟨Role.assistant, reply⟩], false, [Output.reply reply], true, some trimmed⟩
    | Except.error e =>
      some ⟨h1 ++ [⟨Role.assistant, "(Error: ".data ++ e ++ ")".data⟩], false,
        [Output.errorMsg e], true, some trimmed⟩

/-- One iteration of the `while True` loop of `main` on the input `line`
(EOF and interrupts are handled outside the iteration):
strip, skip empty lines, dispatch sigil-prefixed commands on the lowercased
first token, otherwise run a chat turn. -/
def loopStep (history : List Message) (line : List Char) (resp : HttpResponse)
    (max_turns : Int) : Option StepResult :=
  let user := pstrip line
  if user = [] then
    some ⟨history, false, [], false, none⟩
  else if user.head? = some ':' then
    dispatchCmd history (toLowerL (firstTok user)) (restArg user)
  else
    chatTurn history user resp max_turns

/-- The histories the session loop can reach from the initial store
`[{"role": "system", "content": system_prompt}]`, under arbitrary input
lines and remote responses. -/
inductive Reachable (sp : List Char) (k : Int) : List Message → Prop where
  | init : Reachable sp k [⟨Role.system, sp⟩]
  | step (h : List Message) (line : List Char) (resp : HttpResponse) (r : StepResult) :
      Reachable sp k h → loopStep h line resp k = some r → Reachable sp k r.history

/-- Claim C1: for a history headed by the system message and `max_pairs = k > 0`
with `n` messages after the system entry, `truncate_history` returns the system
message followed by the last `min (n, 2k)` of them in original order (all of
them when `n < 2k`); in particular, after two chat turns with `max_pairs = 1`
the submitted window is `[system, assistant reply1, user "bye"]`. -/
theorem C1_truncate_window :
    (∀ (s : Message) (rest : List Message) (k : Int), 0 < k →
      truncate_history (s :: rest) k
          = some (s :: rest.drop (rest.length - 2 * k.toNat))
        ∧ (rest.drop (rest.length - 2 * k.toNat)).length = min rest.length (2 * k.toNat)
        ∧ rest.drop (rest.length - 2 * k.toNat) <:+ rest)
    ∧ (∀ (sp r1 : List Char),
        truncate_history
          [⟨Role.system, sp⟩, ⟨Role.user, "hi".data⟩, ⟨Role.assistant, r1⟩,
            ⟨Role.user, "bye".data⟩] 1
          = some [⟨Role.system, sp⟩, ⟨Role.assistant, r1⟩, ⟨Role.user, "bye".data⟩]) := by
  constructor
  · intro s rest k hk
    refine ⟨truncate_history_pos s rest k hk, ?_, List.drop_suffix _ _⟩
    rw [List.length_drop]
    omega
  · intro sp r1
    rw [truncate_history_pos _ _ 1 (by omega)]
    rfl

theorem C1_truncate_window_witness :
    truncate_history
        [⟨Role.system, "S".data⟩, ⟨Role.user, "hi".data⟩, ⟨Role.assistant, "r".data⟩,
          ⟨Role.user, "bye".data⟩] 1
      = some [⟨Role.system, "S".data⟩, ⟨Role.assistant, "r".data⟩, ⟨Role.user, "bye".data⟩] := by
  have h := C1_truncate_window.1 ⟨Role.system, "S".data⟩
    [⟨Role.user, "hi".data⟩, ⟨Role.assistant, "r".data⟩, ⟨Role.user, "bye".data⟩] 1 (by decide)
  simpa using h.1

/-- Claim C2: for a history headed by the system message and `max_pairs ≤ 0`,
`truncate_history` returns exactly the one-element list with the system
message. -/
theorem C2_truncate_nonpos (s : Message) (rest : List Message) (k : Int) (hk : k ≤ 0) :
    truncate_history (s :: rest) k = some [s] := by
  unfold truncate_history
  rw [if_pos hk]
  rfl

theorem C2_truncate_nonpos_witness :
    truncate_history [⟨Role.system, "S".data⟩, ⟨Role.user, "x".data⟩] 0
      = some [⟨Role.system, "S".data⟩] :=
  C2_truncate_nonpos _ _ 0 (by decide)

/-- Claim C9: `truncate_history` is total on every non-empty history for every
`max_pairs`; on the empty list it is total exactly for `max_pairs ≤ 0`
(the unguarded `history[0]` on the positive branch raises `IndexError`
there, while `history[:1]` on the non-positive branch never raises). -/
theorem C9_truncate_total :
    (∀ (h : List Message) (k : Int), h ≠ [] → (truncate_history h k).isSome = true)
    ∧ (∀ k : Int, (truncate_history ([] : List Message) k).isSome = true ↔ k ≤ 0) := by
  constructor
  · intro h k hne
    match h with
    | [] => exact absurd rfl hne
    | x :: rest =>
      unfold truncate_history
      by_cases hk : k ≤ 0
      · rw [if_pos hk]
        rfl
      · rw [if_neg hk]
        rfl
  · intro k
    unfold truncate_history
    by_cases hk : k ≤ 0
    · rw [if_pos hk]
      simpa using hk
    · rw [if_neg hk]
      simpa using hk

theorem C9_truncate_total_witness :
    ([⟨Role.system, "S".data⟩] : List Message) ≠ []
      ∧ (truncate_history [⟨Role.system, "S".data⟩] 5).isSome = true :=
  ⟨by decide, C9_truncate_total.1 _ 5 (by decide)⟩

/-- Claim C4, counterexample: status 201 is a 200-class (2xx) status carrying
an extractable reply, yet `call_api` raises `RuntimeError` for it — the code
compares `resp.status_code != 200`, not the 2xx class. -/
theorem C4_counterexample :
    call_api ⟨201, "created".data, some "ok".data⟩
      = Except.error "HTTP 201: created".data := by
  rfl

/-- Claim C4, amended: `call_api` treats exactly HTTP status 200 as a success
(proceeding to extract the reply from the JSON body); every status other than
200 — including other 2xx codes — is a hard failure whose error message
carries the status code and the raw response body. -/
theorem C4_status_check (resp : HttpResponse) :
    (resp.status ≠ 200 →
      call_api resp
        = Except.error
            ("HTTP ".data ++ (Nat.repr resp.status).data ++ ": ".data ++ resp.text))
    ∧ (resp.status = 200 →
      call_api resp
        = match resp.extract with
          | some c => Except.ok c
          | none => Except.error ("Unexpected response format: ".data ++ resp.text)) := by
  constructor <;> intro h <;> unfold call_api <;> simp [h]

theorem C4_status_check_witness :
    (404 : Nat) ≠ 200
      ∧ call_api ⟨404, "gone".data, none⟩
          = Except.error
              ("HTTP ".data ++ (Nat.repr 404).data ++ ": ".data ++ "gone".data) :=
  ⟨by decide, (C4_status_check ⟨404, "gone".data, none⟩).1 (by decide)⟩

lemma pstrip_all_space (line : List Char) (h : ∀ c ∈ line, isSpace c = true) :
    pstrip line = [] := by
  unfold pstrip
  rw [List.dropWhile_eq_nil_iff.mpr h]
  rfl

/-- Claim C7: an input line that is empty or consists only of whitespace
leaves the history unchanged, prints nothing, and performs no network call. -/
theorem C7_blank_line (h : List Message) (line : List Char) (resp : HttpResponse) (k : Int)
    (hline : ∀ c ∈ line, isSpace c = true) :
    loopStep h line resp k = some ⟨h, false, [], false, none⟩ := by
  unfold loopStep
  simp [pstrip_all_space line hline]

theorem C7_blank_line_witness :
    loopStep [⟨Role.system, "S".data⟩] " \t ".data ⟨200, [], none⟩ 8
      = some ⟨[⟨Role.system, "S".data⟩], false, [], false, none⟩ :=
  C7_blank_line _ _ _ _ (by decide)

/-- Claim C10: command dispatch lowercases the first token of a
sigil-prefixed line before matching it, so `:QUIT`, `:Help` and `:Reset`
behave exactly like `:quit`, `:help` and `:reset`. -/
theorem C10_case_insensitive :
    (∀ (h : List Message) (line : List Char) (resp : HttpResponse) (k : Int),
      (pstrip line).head? = some ':' →
      loopStep h line resp k
        = dispatchCmd h (toLowerL (firstTok (pstrip line))) (restArg (pstrip line)))
    ∧ (∀ (h : List Message) (resp : HttpResponse) (k : Int),
        loopStep h ":QUIT".data resp k = loopStep h ":quit".data resp k
        ∧ loopStep h ":Help".data resp k = loopStep h ":help".data resp k
        ∧ loopStep h ":Reset".data resp k = loopStep h ":reset".data resp k) := by
  constructor
  · intro h line resp k hc
    have hne : pstrip line ≠ [] := by
      intro he
      rw [he] at hc
      exact Option.noConfusion hc
    unfold loopStep
    rw [if_neg hne, if_pos hc]
  · intro h resp k
    refine ⟨rfl, rfl, rfl⟩

theorem C10_case_insensitive_witness :
    loopStep [⟨Role.system, "S".data⟩] ":RESET".data ⟨200, [], none⟩ 8
      = dispatchCmd [⟨Role.system, "S".data⟩]
          (toLowerL (firstTok (pstrip ":RESET".data))) (restArg (pstrip ":RESET".data)) :=
  C10_case_insensitive.1 _ _ _ _ (by decide)

lemma call_api_ne200 (resp : HttpResponse) (h : resp.status ≠ 200) :
    call_api resp
      = Except.error
          ("HTTP ".data ++ (Nat.repr resp.status).data ++ ": ".data ++ resp.text) := by
  unfold call_api
  rw [if_pos h]

lemma truncate_history_isSome (l : List Message) (k : Int) (hl : l ≠ []) :
    ∃ w, truncate_history l k = some w := by
  match l with
  | [] => exact absurd rfl hl
  | x :: rest =>
    unfold truncate_history
    by_cases hk : k ≤ 0
    · rw [if_pos hk]
      exact ⟨_, rfl⟩
    · rw [if_neg hk]
      exact ⟨_, rfl⟩

/-- Claim C3: a chat turn whose remote call fails does not escape the loop
iteration: the history grows by exactly the user message and an assistant
entry whose content contains the status code and the response body, and the
loop continues (no quit, no crash). -/
theorem C3_failed_turn (h : List Message) (k : Int) (line : List Char) (resp : HttpResponse)
    (h1 : pstrip line ≠ []) (h2 : (pstrip line).head? ≠ some ':') (h3 : resp.status ≠ 200) :
    ∃ (r : StepResult) (err : List Char),
      loopStep h line resp k = some r
      ∧ r.history = h ++ [⟨Role.user, pstrip line⟩, ⟨Role.assistant, err⟩]
      ∧ (Nat.repr resp.status).data <:+: err
      ∧ resp.text <:+: err
      ∧ r.history.length = h.length + 2
      ∧ r.quit = false := by
  obtain ⟨w, hw⟩ := truncate_history_isSome (h ++ [⟨Role.user, pstrip line⟩]) k (by simp)
  have hstep : loopStep h line resp k
      = some ⟨(h ++ [⟨Role.user, pstrip line⟩])
            ++ [⟨Role.assistant,
                "(Error: ".data
                  ++ ("HTTP ".data ++ (Nat.repr resp.status).data ++ ": ".data ++ resp.text)
                  ++ ")".data⟩],
          false,
          [Output.errorMsg
            ("HTTP ".data ++ (Nat.repr resp.status).data ++ ": ".data ++ resp.text)],
          true, some w⟩ := by
    unfold loopStep chatTurn
    rw [if_neg h1, if_neg h2]
    simp only [hw, call_api_ne200 resp h3]
  refine ⟨_,
    "(Error: ".data
      ++ ("HTTP ".data ++ (Nat.repr resp.status).data ++ ": ".data ++ resp.text)
      ++ ")".data, hstep, by simp, ?_, ?_, by simp, rfl⟩
  · exact ⟨"(Error: ".data ++ "HTTP ".data, ": ".data ++ resp.text ++ ")".data, by simp⟩
  · exact ⟨"(Error: ".data ++ "HTTP ".data ++ (Nat.repr resp.status).data ++ ": ".data,
      ")".data, by simp⟩

theorem C3_failed_turn_witness :
    ∃ (r : StepResult) (err : List Char),
      loopStep [⟨Role.system, "S".data⟩] "hello".data ⟨500, "server exploded".data, none⟩ 1
          = some r
      ∧ r.history
          = [⟨Role.system, "S".data⟩]
              ++ [⟨Role.user, pstrip "hello".data⟩, ⟨Role.assistant, err⟩]
      ∧ (Nat.repr 500).data <:+: err
      ∧ "server exploded".data <:+: err
      ∧ r.history.length = ([⟨Role.system, "S".data⟩] : List Message).length + 2
      ∧ r.quit = false :=
  C3_failed_turn [⟨Role.system, "S".data⟩] 1 "hello".data
    ⟨500, "server exploded".data, none⟩ (by decide) (by decide) (by decide)

lemma dispatchCmd_head (h : List Message) (x : Message) (cmd arg : List Char)
    (r : StepResult) (hx : h.head? = some x)
    (hr : dispatchCmd h cmd arg = some r) : r.history.head? = some x := by
  unfold dispatchCmd at hr
  split_ifs at hr
  · cases hr
    exact hx
  · cases hr
    exact hx
  · match h, hx with
    | y :: t, hx =>
      cases hr
      exact hx
  · cases hr
    exact hx
  · cases hr
    exact hx

lemma chatTurn_head (h : List Message) (x : Message) (user : List Char)
    (resp : HttpResponse) (k : Int) (r : StepResult) (hx : h.head? = some x)
    (hr : chatTurn h user resp k = some r) : r.history.head? = some x := by
  have hne : h ≠ [] := by
    intro he
    rw [he] at hx
    exact Option.noConfusion hx
  simp only [chatTurn] at hr
  rcases htr : truncate_history (h ++ [⟨Role.user, user⟩]) k with _ | w
  · rw [htr] at hr
    exact Option.noConfusion hr
  · rw [htr] at hr
    rcases hapi : call_api resp with e | reply
    all_goals rw [hapi] at hr
    all_goals cases hr
    all_goals dsimp only
    all_goals rw [List.head?_append, List.head?_append, hx]
    all_goals rfl

lemma loopStep_head (h : List Message) (x : Message) (line : List Char)
    (resp : HttpResponse) (k : Int) (r : StepResult) (hx : h.head? = some x)
    (hr : loopStep h line resp k = some r) : r.history.head? = some x := by
  unfold loopStep at hr
  by_cases he : pstrip line = []
  · rw [if_pos he] at hr
    cases hr
    exact hx
  · rw [if_neg he] at hr
    by_cases hc : (pstrip line).head? = some ':'
    · rw [if_pos hc] at hr
      exact dispatchCmd_head h x _ _ r hx hr
    · rw [if_neg hc] at hr
      exact chatTurn_head h x _ resp k r hx hr

lemma reachable_head (sp : List Char) (k : Int) (h : List Message)
    (hr : Reachable sp k h) : h.head? = some ⟨Role.system, sp⟩ := by
  induction hr with
  | init => rfl
  | step h' line resp r _ hstep ih => exact loopStep_head h' _ line resp k r ih hstep

/-- Claim C5: at every reachable state of the session loop, index 0 of the
history is the system message with the configured directive; no loop
operation removes or alters it. -/
theorem C5_system_first (sp : List Char) (k : Int) (h : List Message)
    (hr : Reachable sp k h) : h.head? = some ⟨Role.system, sp⟩ :=
  reachable_head sp k h hr

theorem C5_system_first_witness :
    ([⟨Role.system, "S".data⟩] : List Message).head? = some ⟨Role.system, "S".data⟩ :=
  C5_system_first "S".data 8 _ Reachable.init

/-- Claim C6: from every reachable history, the `:reset` command leaves the
store containing exactly the original system message of the session. -/
theorem C6_reset (sp : List Char) (k : Int) (h : List Message) (resp : HttpResponse)
    (hr : Reachable sp k h) :
    loopStep h (":reset".data) resp k
      = some ⟨[⟨Role.system, sp⟩], false, [Output.resetMsg], false, none⟩ := by
  have hx := reachable_head sp k h hr
  match h, hx with
  | y :: t, hx =>
    have hy : y = ⟨Role.system, sp⟩ := by
      simpa using hx
    subst hy
    rfl

theorem C6_reset_witness :
    loopStep [⟨Role.system, "P".data⟩] (":reset".data) ⟨200, [], none⟩ 3
      = some ⟨[⟨Role.system, "P".data⟩], false, [Output.resetMsg], false, none⟩ :=
  C6_reset "P".data 3 _ _ Reachable.init

lemma hasNN_cons (c : Char) (l : List Char) :
    hasNN (c :: l) = ((c = '\n' && l.head? = some '\n') || hasNN l) := rfl

lemma hasNN_append_no_nl (a b : List Char) (ha : ∀ c ∈ a, c ≠ '\n') :
    hasNN (a ++ b) = hasNN b := by
  induction a with
  | nil => rfl
  | cons c t ih =>
    rw [List.cons_append, hasNN_cons]
    have hc : c ≠ '\n' := ha c (List.mem_cons_self c t)
    simp only [decide_eq_false hc, Bool.false_and, Bool.false_or]
    exact ih (fun d hd => ha d (List.mem_cons_of_mem c hd))

lemma breakBlank_append (chunk rest : List Char)
    (hc : hasNN (chunk ++ ['\n']) = false) :
    breakBlank (chunk ++ '\n' :: '\n' :: rest) = some (chunk, rest) := by
  induction chunk with
  | nil => simp [breakBlank]
  | cons c t ih =>
    rw [List.cons_append, hasNN_cons] at hc
    rw [Bool.or_eq_false_iff] at hc
    obtain ⟨hc1, hc2⟩ := hc
    have hhead : (t ++ ['\n']).head? = some '\n' → (t ++ '\n' :: '\n' :: rest).head? = some '\n' := by
      cases t <;> simp
    have hhead2 : (t ++ '\n' :: '\n' :: rest).head? = some '\n' → (t ++ ['\n']).head? = some '\n' := by
      cases t <;> simp
    rw [List.cons_append]
    unfold breakBlank
    have hcond : (c = '\n' && (t ++ '\n' :: '\n' :: rest).head? = some '\n') = false := by
      rw [Bool.and_eq_false_iff] at hc1 ⊢
      rcases hc1 with hc1 | hc1
      · exact Or.inl hc1
      · refine Or.inr ?_
        simp only [decide_eq_false_iff_not] at hc1 ⊢
        intro hcontra
        exact hc1 (hhead2 hcontra)
    rw [hcond]
    simp only [Bool.false_eq_true, if_false]
    rw [ih hc2]
    rfl

lemma dropWhile_ne_colon (lab s : List Char) (hlab : ∀ c ∈ lab, c ≠ ':') :
    (lab ++ ':' :: s).dropWhile (fun c => c ≠ ':') = ':' :: s := by
  induction lab with
  | nil => simp [List.dropWhile]
  | cons c t ih =>
    rw [List.cons_append, List.dropWhile_cons]
    have hc : c ≠ ':' := hlab c (List.mem_cons_self c t)
    rw [decide_eq_true hc, if_pos rfl]
    exact ih (fun d hd => hlab d (List.mem_cons_of_mem c hd))

lemma takeWhile_ne_colon (lab s : List Char) (hlab : ∀ c ∈ lab, c ≠ ':') :
    (lab ++ ':' :: s).takeWhile (fun c => c ≠ ':') = lab := by
  induction lab with
  | nil => simp [List.takeWhile]
  | cons c t ih =>
    rw [List.cons_append, List.takeWhile_cons]
    have hc : c ≠ ':' := hlab c (List.mem_cons_self c t)
    rw [decide_eq_true hc, if_pos rfl]
    rw [ih (fun d hd => hlab d (List.mem_cons_of_mem c hd))]

lemma parseEntry_entry (lab content : List Char) (hlab : ∀ c ∈ lab, c ≠ ':') :
    parseEntry (lab ++ ':' :: ' ' :: content) = some (lab, content) := by
  unfold parseEntry
  rw [dropWhile_ne_colon lab (' ' :: content) hlab,
    takeWhile_ne_colon lab (' ' :: content) hlab]
  rfl

lemma label_no_colon (r : Role) : ∀ c ∈ capitalize (roleStr r), c ≠ ':' := by
  cases r <;> decide

lemma label_no_nl (r : Role) : ∀ c ∈ capitalize (roleStr r) ++ [':', ' '], c ≠ '\n' := by
  cases r <;> decide

lemma length_le_save (h : List Message) : h.length ≤ (save_transcript h).length := by
  induction h with
  | nil => simp [save_transcript]
  | cons m t ih =>
    unfold save_transcript at ih ⊢
    rw [List.map_cons, List.flatten_cons, List.length_append, List.length_cons]
    have h1 : 1 ≤ (serializeMsg m).length := by
      unfold serializeMsg
      simp
      omega
    omega

lemma save_cons (m : Message) (t : List Message) :
    save_transcript (m :: t)
      = (capitalize (roleStr m.role) ++ ':' :: ' ' :: m.content)
          ++ '\n' :: '\n' :: save_transcript t := by
  unfold save_transcript serializeMsg
  rw [List.map_cons, List.flatten_cons]
  simp [List.append_assoc]

lemma parseAllF_save (h : List Message) (fuel : Nat)
    (hgood : ∀ m ∈ h, hasNN (m.content ++ ['\n']) = false)
    (hfuel : h.length ≤ fuel) :
    parseAllF fuel (save_transcript h)
      = some (h.map fun m => (capitalize (roleStr m.role), m.content)) := by
  induction h generalizing fuel with
  | nil =>
    show parseAllF fuel [] = some []
    cases fuel <;> rfl
  | cons m t ih =>
    match fuel, hfuel with
    | f + 1, hfuel =>
      have hbb : breakBlank (save_transcript (m :: t))
          = some (capitalize (roleStr m.role) ++ ':' :: ' ' :: m.content, save_transcript t) := by
        rw [save_cons]
        apply breakBlank_append
        have hform : (capitalize (roleStr m.role) ++ ':' :: ' ' :: m.content) ++ ['\n']
            = (capitalize (roleStr m.role) ++ [':', ' ']) ++ (m.content ++ ['\n']) := by
          simp
        rw [hform, hasNN_append_no_nl _ _ (label_no_nl m.role)]
        exact hgood m (List.mem_cons_self m t)
      have hne : save_transcript (m :: t) ≠ [] := by
        have := length_le_save (m :: t)
        intro he
        rw [he] at this
        simp at this
      have hpe : parseEntry (capitalize (roleStr m.role) ++ ':' :: ' ' :: m.content)
          = some (capitalize (roleStr m.role), m.content) :=
        parseEntry_entry _ _ (label_no_colon m.role)
      have hrec : parseAllF f (save_transcript t)
          = some (t.map fun m => (capitalize (roleStr m.role), m.content)) :=
        ih f (fun d hd => hgood d (List.mem_cons_of_mem m hd)) (by rw [List.length_cons] at hfuel; omega)
      match hs : save_transcript (m :: t) with
      | [] => exact absurd hs hne
      | c :: cs =>
        rw [hs] at hbb
        show parseAllF (f + 1) (c :: cs) = _
        unfold parseAllF
        rw [hbb]
        show (parseEntry (capitalize (roleStr m.role) ++ ':' :: ' ' :: m.content)).bind
            (fun e => (parseAllF f (save_transcript t)).map fun es => e :: es)
          = some (List.map (fun m => (capitalize (roleStr m.role), m.content)) (m :: t))
        rw [hpe, hrec]
        rfl

/-- Claim C8, counterexample: a message whose content itself contains a blank
line breaks the round trip — the written text for this one-message history
parses as two chunks, the second of which has no role label, so the parse
does not return one pair equal to the original. -/
theorem C8_counterexample :
    parseTranscript (save_transcript [⟨Role.user, "a\n\nb".data⟩]) = none := by
  rfl

/-- Claim C8, amended: writing a history with `save_transcript` and parsing
the text back yields exactly the original role/content pairs in order (role
labels capitalized), provided no message content contains two consecutive
newlines or ends in a newline — i.e. `hasNN (content ++ newline) = false`
for every entry. Without that proviso the round trip fails (and the written
form is not even injective), since blank lines are the entry separator. -/
theorem C8_roundtrip (h : List Message)
    (hgood : ∀ m ∈ h, hasNN (m.content ++ ['\n']) = false) :
    parseTranscript (save_transcript h)
      = some (h.map fun m => (capitalize (roleStr m.role), m.content)) :=
  parseAllF_save h _ hgood (length_le_save h)

theorem C8_roundtrip_witness :
    parseTranscript
        (save_transcript [⟨Role.system, "Hi".data⟩, ⟨Role.user, "a:b c".data⟩])
      = some [("System".data, "Hi".data), ("User".data, "a:b c".data)] := by
  have h := C8_roundtrip [⟨Role.system, "Hi".data⟩, ⟨Role.user, "a:b c".data⟩] (by decide)
  simpa using h
